import Mathlib

/-!
Verification of the explorium-assistant orchestration kernel.

The definitions below are a shallow embedding of the repository code:
  * `app/main.py` — the `run_mcp_and_send_final` helper coroutine, the
    `websocket_endpoint` frame loop, and the regex-based structured-email
    extraction;
  * `app/agent/graph.py` — the `reasoning_node` / `tools_condition` LangGraph
    loop with its recursion limit;
  * `app/agent/standard_agent.py` — the `send_standard_llm_response`
    single-shot pipeline.

Text is modelled as `String` (with `List Char` workhorse functions on
`String.data`), JSON payloads as the inductive `JVal`, and the two
network-facing pipelines as pure functions from an outcome (what the model /
tool provider / stream did) to the ordered list of events sent on the
websocket channel.  Channel sends are assumed to succeed (the connection is
alive); the source wraps every send in a try/except that only logs when the
socket is already gone.
-/

namespace Explorium

/-- A tool call as carried by a LangChain `AIMessage` (`tc.get("name")`,
`tc.get("args")`); the argument mapping is treated as an opaque string. -/
structure ToolCall where
  name : String
  args : String
deriving DecidableEq, Repr

/-- The slice of a LangGraph stream message that `run_mcp_and_send_final`
inspects: an `AIMessage` (content plus tool calls) or a `ToolMessage`. -/
inductive Msg where
  | ai (content : String) (tool_calls : List ToolCall)
  | tool (name : String) (content : String)
deriving DecidableEq, Repr

/-- One entry of the `intermediate_steps` list built in
`run_mcp_and_send_final` (`step_type` of `ai_tool_call`, `ai_thought`,
`tool_result`). -/
inductive Step where
  | aiToolCall (tool_name : String) (tool_args : String)
  | aiThought (content : String)
  | toolResult (tool_name : String) (content : String)
deriving DecidableEq, Repr

/-- The `structured_email_data` dict built by the regex parse in
`run_mcp_and_send_final` (keys `potential_contacts`, `subject`, `body`). -/
structure StructuredEmail where
  potential_contacts : String
  subject : String
  body : String
deriving DecidableEq, Repr

/-- The outbound websocket events this core emits (each is serialized to a
JSON object by `eventToJson` below, mirroring the dict literals in the
source). -/
inductive Event where
  | mcpFinalEmail (content : StructuredEmail)
  | mcpIntermediateSteps (steps : List Step)
  | standardFinalEmail (content : String)
  | errorEv (source : String) (content : String)
deriving DecidableEq, Repr

/-- Whitespace as stripped by Python `str.strip()`. -/
def pySpace (c : Char) : Bool :=
  c == ' ' || c == '\t' || c == '\n' || c == '\r' || c == '\x0b' || c == '\x0c'

/-- Python `str.strip()` on a character list. -/
def pyStripL (s : List Char) : List Char :=
  ((s.dropWhile pySpace).reverse.dropWhile pySpace).reverse

/-- Python `str.strip()`. -/
def pyStrip (s : String) : String :=
  String.mk (pyStripL s.data)

/-- Does `pat` match at the head of `s`, ASCII case-insensitively
(re.IGNORECASE on the ASCII header labels used by the source)? -/
def startsWithCI : List Char → List Char → Bool
  | _, [] => true
  | [], _ :: _ => false
  | c :: cs, p :: ps => (c.toLower == p.toLower) && startsWithCI cs ps

/-- Index of the leftmost case-insensitive occurrence of `pat` in `s`
(`re.search` locates the leftmost match of a pattern that begins with a
literal label). -/
def findCI (s pat : List Char) : Option Nat :=
  match s with
  | [] => if pat.isEmpty then some 0 else none
  | _ :: rest =>
    if startsWithCI s pat then some 0
    else (findCI rest pat).map (· + 1)

/-- The lazy group `(.*?)(T1|T2|$)` under DOTALL: take characters until the
first position where one of the terminator labels matches case-insensitively,
or where `$` matches (end of text, or just before a final newline - Python
`$` without MULTILINE). -/
def takeUntilTerm : List Char → List (List Char) → List Char
  | [], _ => []
  | c :: rest, terms =>
    if terms.any (fun t => startsWithCI (c :: rest) t) then []
    else if c == '\n' && rest.isEmpty then []
    else c :: takeUntilTerm rest terms

/-- `re.search(label + "(.*?)(terms|$)", t, DOTALL | IGNORECASE)`: locate the
leftmost occurrence of `label` and return the lazy group after it. -/
def sectionAfter (t label : List Char) (terms : List (List Char)) : Option (List Char) :=
  match findCI t label with
  | none => none
  | some i => some (takeUntilTerm (t.drop (i + label.length)) terms)

/-- The regex parse of the final AI message in `run_mcp_and_send_final`
(`contacts_match` / `subject_match` / `body_match`): `body` is mandatory and
greedy to the end of the text; `potential_contacts` runs until `Subject:` or
`Body:`; `subject` runs until `Body:`; missing optional groups default to the
empty string; every group value is `.strip()`ed. -/
def extractEmailL (t : List Char) : Option (List Char × List Char × List Char) :=
  match findCI t "Body:".data with
  | none => none
  | some i =>
    some
      ((match sectionAfter t "Potential Contacts:".data ["Subject:".data, "Body:".data] with
        | some s => pyStripL s
        | none => []),
       (match sectionAfter t "Subject:".data ["Body:".data] with
        | some s => pyStripL s
        | none => []),
       pyStripL (t.drop (i + ("Body:".data).length)))

/-- String-level wrapper for the structured-email parse. -/
def extractEmail (s : String) : Option StructuredEmail :=
  match extractEmailL s.data with
  | none => none
  | some (c, subj, b) => some ⟨String.mk c, String.mk subj, String.mk b⟩

example : extractEmail "Potential Contacts: A\nSubject: B\nBody: C" =
    some ⟨"A", "B", "C"⟩ := by decide

example : extractEmail "Body: hello <<<mcp_data>>>X<<<end_mcp_data>>>" =
    some ⟨"", "", "hello <<<mcp_data>>>X<<<end_mcp_data>>>"⟩ := by decide

example : extractEmail "no header at all" = none := by decide

/-! ## The streaming result collector (`run_mcp_and_send_final`, part 1)

`run_mcp_and_send_final` iterates the graph stream (`stream_mode="values"`);
for each event it looks at `event["messages"][-1]` only.  `msgs` below is the
sequence of those latest messages (the initial `HumanMessage` event carries
neither an `AIMessage` nor a `ToolMessage` and is ignored by the code, so it
is omitted here; a tools super-step that appended several `ToolMessage`s is
observed only through its last one, which is how `getLastD` enters
`graphStream` further down). -/

/-- The `intermediate_steps` list accumulated during the stream: per
`AIMessage` either one `ai_tool_call` entry per tool call or one `ai_thought`
entry, and one `tool_result` entry per observed `ToolMessage`. -/
def collectSteps : List Msg → List Step
  | [] => []
  | Msg.ai c tcs :: rest =>
    (if tcs.isEmpty then [Step.aiThought c]
     else tcs.map (fun tc => Step.aiToolCall tc.name tc.args)) ++ collectSteps rest
  | Msg.tool nm c :: rest => Step.toolResult nm c :: collectSteps rest

/-- The running `last_ai_message_content` variable: content of the last
`AIMessage` observed in the stream, if any. -/
def lastAIContent : List Msg → Option String
  | [] => none
  | Msg.ai c _ :: rest => some ((lastAIContent rest).getD c)
  | Msg.tool _ _ :: rest => lastAIContent rest

/-- The trailing-step removal test: last collected step is an `ai_thought`
whose content equals `last_ai_message_content`. -/
def popCond (steps : List Step) (c : String) : Bool :=
  match steps.getLast? with
  | some (Step.aiThought t) => t == c
  | _ => false

/-- The step list actually placed in the `mcp_intermediate_steps` event:
the collected list, with the trailing duplicate thought popped when present. -/
def sentStepsOf (steps : List Step) (c : String) : List Step :=
  if popCond steps c then steps.dropLast else steps

/-- The final event for the reasoning pipeline, given the stripped terminal
text: `mcp_final_email` when the regex parse found a body, otherwise the
typed `error` event with the reason the source picks from `extracted_text`. -/
def finalEventOf (t : String) : Event :=
  if t == "" then
    Event.errorEv "mcp" "MCP agent did not produce a final email draft text."
  else
    match extractEmail t with
    | some r => Event.mcpFinalEmail r
    | none => Event.errorEv "mcp" "Could not parse structured email from final AI message."

/-- The single event sent when `last_ai_message_content` is falsy (either
`None` - no `AIMessage` observed - or the empty string): the truthy branch
that binds `extracted_text` is skipped, so evaluating `error_detail` reads
the unbound local `extracted_text` and Python raises `UnboundLocalError`;
the outer `except` catches it and sends one generic streaming error, and
the intermediate steps are never sent.  The interpolated exception text is
CPython 3.11+ wording; older versions word it differently - no theorem
below depends on this string. -/
def unboundLocalEvent : Event :=
  Event.errorEv "mcp"
    "Error during MCP graph streaming: cannot access local variable \x27extracted_text\x27 where it is not associated with a value"

/-- Events sent by `run_mcp_and_send_final` once the stream has finished
normally.  `if last_ai_message_content:` is Python truthiness: both `None`
and the empty string fall to the `UnboundLocalError` path described at
`unboundLocalEvent` (one error event, no steps event).  Otherwise the
final/error event is sent first and the `mcp_intermediate_steps` event
second, the latter only when the collected list is non-empty (the
emptiness test happens before the pop). -/
def mcpHelperEvents (msgs : List Msg) : List Event :=
  match lastAIContent msgs with
  | none => [unboundLocalEvent]
  | some c =>
    if c == "" then [unboundLocalEvent]
    else
      finalEventOf (pyStrip c) ::
        (if (collectSteps msgs).isEmpty then []
         else [Event.mcpIntermediateSteps (sentStepsOf (collectSteps msgs) c)])

/-! ## The two pipelines as event producers -/

/-- Outcome of the graph stream inside `run_mcp_and_send_final`: either the
stream completed and these stream messages were observed, or it raised
(`invoke_err`, e.g. the recursion-limit error) with this message. -/
inductive MCPOutcome where
  | ok (msgs : List Msg)
  | exn (e : String)
deriving DecidableEq, Repr

/-- Outcome of the single model call in `send_standard_llm_response`: the
response content (possibly empty/falsy), or a raised exception rendered as
`type(e).__name__ - str(e)`. -/
inductive StdOutcome where
  | ok (content : String)
  | exn (e : String)
deriving DecidableEq, Repr

/-- `run_mcp_and_send_final`: events sent on the channel for one reasoning
pipeline run, as a function of the stream outcome.  A raised stream is
caught by the `except` block, which sends exactly one mcp-tagged error
event. -/
def run_mcp_and_send_final : MCPOutcome → List Event
  | MCPOutcome.ok msgs => mcpHelperEvents msgs
  | MCPOutcome.exn e =>
    [Event.errorEv "mcp" ("Error during MCP graph streaming: " ++ e)]

/-- `send_standard_llm_response`: one success event carrying the content
(falsy content replaced by the fixed fallback string), or one
standard-tagged error event when the model call raised. -/
def send_standard_llm_response : StdOutcome → List Event
  | StdOutcome.ok c =>
    [Event.standardFinalEmail (if c == "" then "Standard agent produced no content." else c)]
  | StdOutcome.exn e =>
    [Event.errorEv "standard" ("Error in Standard Agent Generation: " ++ e)]

/-- The two `asyncio.create_task` calls in `websocket_endpoint`: each
pipeline's events are a function of its own outcome only. -/
def dispatchRuns (mo : MCPOutcome) (so : StdOutcome) : List Event × List Event :=
  (run_mcp_and_send_final mo, send_standard_llm_response so)

/-- Terminal event of the reasoning pipeline: its success event or an
error event tagged `source = "mcp"`. -/
def isTerminalMCP : Event → Bool
  | Event.mcpFinalEmail _ => true
  | Event.errorEv s _ => s == "mcp"
  | _ => false

/-- Terminal event of the single-shot pipeline: its success event or an
error event tagged `source = "standard"`. -/
def isTerminalStd : Event → Bool
  | Event.standardFinalEmail _ => true
  | Event.errorEv s _ => s == "standard"
  | _ => false

/-! ## The reasoning loop (`graph.py`) -/

/-- Result of one `bound_model.ainvoke` call in `reasoning_node`: an
`AIMessage` (content and tool calls) or a raised invocation error. -/
inductive ModelResult where
  | ok (content : String) (tool_calls : List ToolCall)
  | err (e : String)
deriving DecidableEq, Repr

/-- The `AIMessage` slice produced by `reasoning_node`. -/
structure AIResp where
  content : String
  tool_calls : List ToolCall
deriving DecidableEq, Repr

/-- The synthetic degraded-mode content substituted by `reasoning_node`
when the model invocation raises. -/
def rateLimitText : String :=
  "I\x27m currently experiencing some rate limiting. Please try again in a moment."

/-- `reasoning_node`: invoke the model; on any exception return the
synthetic apology `AIMessage` with no tool calls instead of propagating. -/
def reasoning_node : ModelResult → AIResp
  | ModelResult.ok c tcs => ⟨c, tcs⟩
  | ModelResult.err _ => ⟨rateLimitText, []⟩

/-- `tools_condition` (langgraph prebuilt): route to the tools node exactly
when the latest `AIMessage` carries tool calls, otherwise to `END`. -/
def tools_condition (r : AIResp) : Bool :=
  !r.tool_calls.isEmpty

/-- The graph stream observed by `run_mcp_and_send_final`, with LangGraph's
`recursion_limit` as fuel: each super-step (one `reasoning_node` or one
`tools` execution) consumes one unit, and needing a step with no fuel left
raises `GraphRecursionError` (modelled as `Except.error`).  `oracle n` is the
model's answer at the n-th REASON phase and `texec` the tool provider.  A
tools super-step appends one `ToolMessage` per tool call, of which the
values-mode stream consumer sees only the last — hence `getLastD`. -/
def graphStream (oracle : Nat → ModelResult) (texec : ToolCall → String) :
    Nat → Nat → Except String (List Msg)
  | 0, _ => Except.error "GraphRecursionError"
  | 1, n =>
    if tools_condition (reasoning_node (oracle n)) then
      Except.error "GraphRecursionError"
    else
      Except.ok [Msg.ai (reasoning_node (oracle n)).content (reasoning_node (oracle n)).tool_calls]
  | fuel + 2, n =>
    if tools_condition (reasoning_node (oracle n)) then
      Except.map
        (fun rest =>
          Msg.ai (reasoning_node (oracle n)).content (reasoning_node (oracle n)).tool_calls ::
          Msg.tool ((reasoning_node (oracle n)).tool_calls.getLastD ⟨"", ""⟩).name
            (texec ((reasoning_node (oracle n)).tool_calls.getLastD ⟨"", ""⟩)) :: rest)
        (graphStream oracle texec fuel (n + 1))
    else
      Except.ok [Msg.ai (reasoning_node (oracle n)).content (reasoning_node (oracle n)).tool_calls]

/-- The whole reasoning pipeline as launched by `websocket_endpoint`: run
the graph stream under `config.recursion_limit` (50 in the source) and feed
the outcome to `run_mcp_and_send_final`. -/
def mcpPipelineRun (oracle : Nat → ModelResult) (texec : ToolCall → String)
    (limit : Nat) : List Event :=
  match graphStream oracle texec limit 0 with
  | Except.ok msgs => run_mcp_and_send_final (MCPOutcome.ok msgs)
  | Except.error e => run_mcp_and_send_final (MCPOutcome.exn e)

/-! ## JSON envelopes (`json.dumps` payload shapes) and the endpoint loop -/

/-- The fragment of JSON needed by the envelopes this core sends and
receives: strings, arrays and objects (key/value field lists). -/
inductive JVal where
  | s (v : String)
  | a (items : List JVal)
  | o (fields : List (String × JVal))

/-- First value bound to `key` in a field list (Python dict literals here
never repeat a key). -/
def lookupField : List (String × JVal) → String → Option JVal
  | [], _ => none
  | (k, v) :: rest, key => if k == key then some v else lookupField rest key

/-- Field access on an object value. -/
def getField : JVal → String → Option JVal
  | JVal.o fs, key => lookupField fs key
  | _, _ => none

/-- Field access returning a string value, when the field holds one. -/
def getStr (j : JVal) (key : String) : Option String :=
  match getField j key with
  | some (JVal.s v) => some v
  | _ => none

/-- Does the object value carry this key at all? -/
def hasKey (j : JVal) (key : String) : Bool :=
  (getField j key).isSome

/-- The `content` sub-object of an envelope (empty object when absent). -/
def contentOf (j : JVal) : JVal :=
  (getField j "content").getD (JVal.o [])

/-- Serialization of one intermediate step, mirroring the dict literals in
`run_mcp_and_send_final`. -/
def stepToJson : Step → JVal
  | Step.aiToolCall nm args =>
    JVal.o [("step_type", JVal.s "ai_tool_call"), ("tool_name", JVal.s nm),
            ("tool_args", JVal.s args)]
  | Step.aiThought c =>
    JVal.o [("step_type", JVal.s "ai_thought"), ("content", JVal.s c)]
  | Step.toolResult nm c =>
    JVal.o [("step_type", JVal.s "tool_result"), ("tool_name", JVal.s nm),
            ("content", JVal.s c)]

/-- Serialization of each outbound event, mirroring character-for-character
the dict literals passed to `json.dumps` in `main.py` and
`standard_agent.py`. -/
def eventToJson : Event → JVal
  | Event.mcpFinalEmail r =>
    JVal.o [("type", JVal.s "mcp_final_email"),
            ("content", JVal.o [("potential_contacts", JVal.s r.potential_contacts),
                                ("subject", JVal.s r.subject),
                                ("body", JVal.s r.body)])]
  | Event.mcpIntermediateSteps steps =>
    JVal.o [("type", JVal.s "mcp_intermediate_steps"),
            ("steps", JVal.a (steps.map stepToJson))]
  | Event.standardFinalEmail c =>
    JVal.o [("type", JVal.s "standard_final_email"), ("content", JVal.s c)]
  | Event.errorEv src c =>
    JVal.o [("type", JVal.s "error"), ("source", JVal.s src), ("content", JVal.s c)]

/-- Python truthiness for the JSON values above (`if not user_input`). -/
def truthy : JVal → Bool
  | JVal.s v => !(v == "")
  | JVal.a xs => !xs.isEmpty
  | JVal.o fs => !fs.isEmpty

/-- What `websocket_endpoint` does with one received frame. -/
inductive FrameResult where
  | skip
  | dispatched (userInput : JVal)

/-- One iteration of the receive loop in `websocket_endpoint`.  `none`
stands for a frame that is not valid JSON (`json.JSONDecodeError` →
`continue`); a non-object frame makes `.get` raise, caught by the broad
`except` → `continue`; a missing or falsy `message` value hits
`if not user_input: continue`; otherwise both agent tasks are dispatched
with the message value. -/
def handleFrame : Option JVal → FrameResult
  | none => FrameResult.skip
  | some (JVal.o fs) =>
    match lookupField fs "message" with
    | none => FrameResult.skip
    | some v => if truthy v then FrameResult.dispatched v else FrameResult.skip
  | some _ => FrameResult.skip

/-- The frames claim C10 calls invalid: not JSON, no `message` key reachable,
or an empty-string `message`. -/
def badFrame : Option JVal → Bool
  | none => true
  | some (JVal.o fs) =>
    match lookupField fs "message" with
    | none => true
    | some (JVal.s m) => m == ""
    | some _ => false
  | some _ => true

/-- The receive loop over a sequence of frames: the user inputs for which
pipeline pairs are dispatched, in order.  A skipped frame contributes
nothing and the loop continues with the rest. -/
def processFrames : List (Option JVal) → List JVal
  | [] => []
  | f :: rest =>
    match handleFrame f with
    | FrameResult.skip => processFrames rest
    | FrameResult.dispatched m => m :: processFrames rest

/-- Events the endpoint causes to be sent for one frame (given the two
pipeline outcomes): none at all on the skip paths, which only `print` and
`continue`. -/
def frameOutEvents (raw : Option JVal) (mo : MCPOutcome) (so : StdOutcome) : List Event :=
  match handleFrame raw with
  | FrameResult.skip => []
  | FrameResult.dispatched _ => run_mcp_and_send_final mo ++ send_standard_llm_response so

/-! ## Supporting lemmas -/

/-- Membership from `getLast?`. -/
theorem getLast?_mem_of_eq {α : Type} {l : List α} {a : α}
    (h : l.getLast? = some a) : a ∈ l := by
  rcases List.mem_getLast?_eq_getLast (Option.mem_def.mpr h) with ⟨hne, rfl⟩
  exact List.getLast_mem hne

/-- Induction in steps of two, matching the fuel use of `graphStream`. -/
theorem twoStepInduction {P : Nat → Prop} (h0 : P 0) (h1 : P 1)
    (hs : ∀ n, P n → P (n + 2)) : ∀ n, P n := by
  have key : ∀ n, P n ∧ P (n + 1) := by
    intro n
    induction n with
    | zero => exact ⟨h0, h1⟩
    | succ k ih => exact ⟨ih.2, hs k ih.1⟩
  exact fun n => (key n).1

/-- `collectSteps` distributes over append. -/
theorem collectSteps_append (xs ys : List Msg) :
    collectSteps (xs ++ ys) = collectSteps xs ++ collectSteps ys := by
  induction xs with
  | nil => simp [collectSteps]
  | cons m rest ih => cases m <;> simp [collectSteps, ih]

/-- The tracked last-AI content of a stream ending in an `AIMessage` is that
message's content. -/
theorem lastAIContent_concat_ai (xs : List Msg) (c : String) (tcs : List ToolCall) :
    lastAIContent (xs ++ [Msg.ai c tcs]) = some c := by
  induction xs with
  | nil => simp [lastAIContent]
  | cons m rest ih => cases m <;> simp [lastAIContent, ih]

/-- A stream message that cannot contribute an `ai_thought` step: an
`AIMessage` with tool calls, or a `ToolMessage`. -/
def thoughtFree : Msg → Bool
  | Msg.ai _ tcs => !tcs.isEmpty
  | Msg.tool _ _ => true

/-- Thought-free stream messages produce no `ai_thought` steps. -/
theorem noThought_collect (msgs : List Msg)
    (h : ∀ m ∈ msgs, thoughtFree m = true) (t : String) :
    Step.aiThought t ∉ collectSteps msgs := by
  induction msgs with
  | nil => simp [collectSteps]
  | cons m rest ih =>
    have hm : thoughtFree m = true := h m (List.mem_cons_self m rest)
    have hrest : ∀ m ∈ rest, thoughtFree m = true :=
      fun x hx => h x (List.mem_cons_of_mem m hx)
    cases m with
    | ai c tcs =>
      have hne : tcs.isEmpty = false := by
        simpa [thoughtFree] using hm
      simp only [collectSteps, hne, if_neg Bool.false_ne_true, List.mem_append]
      rintro (hmem | hmem)
      · rcases List.mem_map.mp hmem with ⟨tc, _, htc⟩
        exact Step.noConfusion htc
      · exact ih hrest hmem
    | tool nm c =>
      simp only [collectSteps, List.mem_cons]
      rintro (hmem | hmem)
      · exact Step.noConfusion hmem
      · exact ih hrest hmem

/-- Shape of every stream that completes normally: a thought-free run of
messages followed by one final tool-call-free `AIMessage` (the
`tools_condition` routing ends the graph exactly on a tool-call-free
`AIMessage`). -/
theorem graphStream_ok_shape (oracle : Nat → ModelResult) (texec : ToolCall → String) :
    ∀ fuel n msgs, graphStream oracle texec fuel n = Except.ok msgs →
      ∃ pre c, msgs = pre ++ [Msg.ai c []] ∧ ∀ m ∈ pre, thoughtFree m = true := by
  intro fuel
  induction fuel using twoStepInduction with
  | h0 =>
    intro n msgs h
    exact absurd h (by simp [graphStream])
  | h1 =>
    intro n msgs h
    by_cases hc : tools_condition (reasoning_node (oracle n)) = true
    · rw [graphStream, if_pos hc] at h
      exact absurd h (by simp)
    · rw [graphStream, if_neg hc] at h
      have htc : (reasoning_node (oracle n)).tool_calls = [] := by
        have : (reasoning_node (oracle n)).tool_calls.isEmpty = true := by
          revert hc
          unfold tools_condition
          cases (reasoning_node (oracle n)).tool_calls.isEmpty <;> simp
        exact List.isEmpty_iff.mp this
      refine ⟨[], (reasoning_node (oracle n)).content, ?_, by simp⟩
      rw [htc] at h
      exact (Except.ok.inj h).symm
  | hs fuel ih =>
    intro n msgs h
    by_cases hc : tools_condition (reasoning_node (oracle n)) = true
    · rw [graphStream, if_pos hc] at h
      cases hrec : graphStream oracle texec fuel (n + 1) with
      | error e => rw [hrec] at h; exact absurd h (by simp [Except.map])
      | ok rest =>
        rw [hrec] at h
        simp only [Except.map] at h
        rcases ih (n + 1) rest hrec with ⟨pre, c, hrest, hpre⟩
        have hmsgs := (Except.ok.inj h).symm
        refine ⟨Msg.ai (reasoning_node (oracle n)).content (reasoning_node (oracle n)).tool_calls ::
          Msg.tool ((reasoning_node (oracle n)).tool_calls.getLastD ⟨"", ""⟩).name
            (texec ((reasoning_node (oracle n)).tool_calls.getLastD ⟨"", ""⟩)) :: pre, c, ?_, ?_⟩
        · rw [hmsgs, hrest]; simp
        · intro m hm
          rcases List.mem_cons.mp hm with rfl | hm
          · simpa [thoughtFree, tools_condition] using hc
          · rcases List.mem_cons.mp hm with rfl | hm
            · rfl
            · exact hpre m hm
    · rw [graphStream, if_neg hc] at h
      have htc : (reasoning_node (oracle n)).tool_calls = [] := by
        have : (reasoning_node (oracle n)).tool_calls.isEmpty = true := by
          revert hc
          unfold tools_condition
          cases (reasoning_node (oracle n)).tool_calls.isEmpty <;> simp
        exact List.isEmpty_iff.mp this
      refine ⟨[], (reasoning_node (oracle n)).content, ?_, by simp⟩
      rw [htc] at h
      exact (Except.ok.inj h).symm

/-- The final/error event of the helper is its success event or an
mcp-tagged error. -/
theorem finalEventOf_cases (t : String) :
    (∃ r, finalEventOf t = Event.mcpFinalEmail r) ∨
    (∃ m, finalEventOf t = Event.errorEv "mcp" m) := by
  unfold finalEventOf
  by_cases h : (t == "") = true
  · rw [if_pos h]; exact Or.inr ⟨_, rfl⟩
  · rw [if_neg h]
    cases extractEmail t with
    | some r => exact Or.inl ⟨r, rfl⟩
    | none => exact Or.inr ⟨_, rfl⟩

/-- The final/error event is never the steps event. -/
theorem finalEventOf_ne_steps (t : String) (s : List Step) :
    finalEventOf t ≠ Event.mcpIntermediateSteps s := by
  rcases finalEventOf_cases t with ⟨r, hr⟩ | ⟨m, hm⟩
  · rw [hr]; exact fun h => Event.noConfusion h
  · rw [hm]; exact fun h => Event.noConfusion h

/-- The final/error event of the helper is terminal for the mcp pipeline. -/
theorem finalEventOf_terminal (t : String) :
    isTerminalMCP (finalEventOf t) = true := by
  rcases finalEventOf_cases t with ⟨r, hr⟩ | ⟨m, hm⟩
  · rw [hr]; rfl
  · rw [hm]; rfl

/-- Unfolding of the helper on the truthy path: a non-empty last AI content
yields the final/error event followed by the conditional steps event. -/
theorem mcpHelperEvents_nonempty (msgs : List Msg) (c : String)
    (h1 : lastAIContent msgs = some c) (hcne : (c == "") = false) :
    mcpHelperEvents msgs =
      finalEventOf (pyStrip c) ::
        (if (collectSteps msgs).isEmpty then []
         else [Event.mcpIntermediateSteps (sentStepsOf (collectSteps msgs) c)]) := by
  have hni : ¬ ((c == "") = true) := by simp [hcne]
  simp only [mcpHelperEvents, h1, if_neg hni]

/-- Unfolding of the helper on the falsy path: an empty last AI content
yields only the generic streaming-error event. -/
theorem mcpHelperEvents_empty (msgs : List Msg)
    (h1 : lastAIContent msgs = some "") :
    mcpHelperEvents msgs = [unboundLocalEvent] := by
  simp only [mcpHelperEvents, h1]
  rfl

/-- The helper always emits a terminal event, on every path. -/
theorem mcpHelper_terminal (msgs : List Msg) :
    ∃ ev ∈ mcpHelperEvents msgs, isTerminalMCP ev = true := by
  cases hl : lastAIContent msgs with
  | none =>
    have hone : mcpHelperEvents msgs = [unboundLocalEvent] := by
      simp only [mcpHelperEvents, hl]
    rw [hone]
    exact ⟨_, List.mem_singleton_self _, rfl⟩
  | some c =>
    by_cases hc : (c == "") = true
    · have hz : c = "" := by simpa using hc
      rw [mcpHelperEvents_empty msgs (hz ▸ hl)]
      exact ⟨_, List.mem_singleton_self _, rfl⟩
    · have hcne : (c == "") = false := by
        cases hb : (c == "") with
        | false => rfl
        | true => exact absurd hb hc
      rw [mcpHelperEvents_nonempty msgs c hl hcne]
      exact ⟨finalEventOf (pyStrip c), List.mem_cons_self _ _, finalEventOf_terminal _⟩

/-- A model that asks for tools at every REASON phase exhausts any
recursion limit: the stream always raises. -/
theorem graphStream_alwaysTools (oracle : Nat → ModelResult) (texec : ToolCall → String)
    (h : ∀ n, tools_condition (reasoning_node (oracle n)) = true) :
    ∀ limit n, graphStream oracle texec limit n = Except.error "GraphRecursionError" := by
  intro limit
  induction limit using twoStepInduction with
  | h0 => intro n; rfl
  | h1 => intro n; rw [graphStream, if_pos (h n)]
  | hs fuel ih =>
    intro n
    rw [graphStream, if_pos (h n), ih (n + 1)]
    rfl

/-- Python `strip` only removes a whitespace margin: the stripped value is a
contiguous slice of the input. -/
theorem pyStripL_sandwich (s : List Char) : ∃ u v, s = u ++ pyStripL s ++ v := by
  refine ⟨s.takeWhile pySpace, ((s.dropWhile pySpace).reverse.takeWhile pySpace).reverse, ?_⟩
  unfold pyStripL
  conv_lhs => rw [← List.takeWhile_append_dropWhile pySpace s]
  rw [List.append_assoc]
  congr 1
  conv_lhs => rw [← List.reverse_reverse (s.dropWhile pySpace)]
  conv_lhs =>
    rw [← List.takeWhile_append_dropWhile pySpace (s.dropWhile pySpace).reverse]
  rw [List.reverse_append]

/-! ## Claims -/

/-- Claim C1: for every inbound user message with non-empty text the endpoint
dispatches both pipelines, each pipeline's event list contains a terminal
event (success, degraded success, or an error event tagged with its source)
whatever its outcome, and each pipeline's events are unchanged by the other
pipeline's outcome. -/
theorem claim_C1 (m : String) (hm : m ≠ "") (mo : MCPOutcome) (so : StdOutcome) :
    handleFrame (some (JVal.o [("message", JVal.s m)])) = FrameResult.dispatched (JVal.s m) ∧
    (∃ ev ∈ run_mcp_and_send_final mo, isTerminalMCP ev = true) ∧
    (∃ ev ∈ send_standard_llm_response so, isTerminalStd ev = true) ∧
    (∀ mo2 : MCPOutcome, (dispatchRuns mo so).2 = (dispatchRuns mo2 so).2) ∧
    (∀ so2 : StdOutcome, (dispatchRuns mo so).1 = (dispatchRuns mo so2).1) := by
  refine ⟨?_, ?_, ?_, fun _ => rfl, fun _ => rfl⟩
  · have hm' : (m == "") = false := by
      cases hb : (m == "") with
      | false => rfl
      | true => exact absurd (by simpa using hb) hm
    simp [handleFrame, lookupField, truthy, hm']
  · cases mo with
    | ok msgs => exact mcpHelper_terminal msgs
    | exn e => exact ⟨_, List.mem_singleton_self _, rfl⟩
  · cases so with
    | ok c => exact ⟨_, List.mem_singleton_self _, rfl⟩
    | exn e => exact ⟨_, List.mem_singleton_self _, rfl⟩

theorem claim_C1_witness :
    (handleFrame (some (JVal.o [("message", JVal.s "write an email to Acme")])) =
      FrameResult.dispatched (JVal.s "write an email to Acme")) ∧
    (∃ ev ∈ run_mcp_and_send_final (MCPOutcome.exn "boom"), isTerminalMCP ev = true) ∧
    (∃ ev ∈ send_standard_llm_response (StdOutcome.ok "draft"), isTerminalStd ev = true) ∧
    (∀ mo2 : MCPOutcome,
      (dispatchRuns (MCPOutcome.exn "boom") (StdOutcome.ok "draft")).2 =
      (dispatchRuns mo2 (StdOutcome.ok "draft")).2) ∧
    (∀ so2 : StdOutcome,
      (dispatchRuns (MCPOutcome.exn "boom") (StdOutcome.ok "draft")).1 =
      (dispatchRuns (MCPOutcome.exn "boom") so2).1) :=
  claim_C1 "write an email to Acme" (by decide) (MCPOutcome.exn "boom") (StdOutcome.ok "draft")

/-- A model oracle that requests a tool call at every REASON phase, as in
the stream of a run that never produces a tool-call-free answer. -/
def c2oracle : Nat → ModelResult :=
  fun _ => ModelResult.ok "calling a tool" [⟨"match_businesses", "Acme"⟩]

/-- A tool provider that always answers. -/
def c2texec : ToolCall → String :=
  fun _ => "tool result"

/-- Claim C2, counterexample: with the configured limit of 50 super-steps
(25 REASON/ACT cycles), a run that never produces a tool-call-free
AIResponse does NOT force-terminate into DONE as a normal completion — the
pipeline emits a single mcp-tagged error event, no success event, no
intermediate-steps event, and no truncated-flagged completion exists
anywhere in the code. -/
theorem claim_C2_counterexample :
    mcpPipelineRun c2oracle c2texec 50 =
      [Event.errorEv "mcp" "Error during MCP graph streaming: GraphRecursionError"] ∧
    (∀ ev ∈ mcpPipelineRun c2oracle c2texec 50,
      (∀ r, ev ≠ Event.mcpFinalEmail r) ∧ (∀ s, ev ≠ Event.mcpIntermediateSteps s)) := by
  have h1 : mcpPipelineRun c2oracle c2texec 50 =
      [Event.errorEv "mcp" "Error during MCP graph streaming: GraphRecursionError"] := by
    decide
  refine ⟨h1, ?_⟩
  intro ev hev
  rw [h1] at hev
  rcases List.mem_singleton.mp hev with rfl
  exact ⟨fun r h => Event.noConfusion h, fun s h => Event.noConfusion h⟩

/-- Claim C2, amended: if the model requests tool calls at every REASON
phase, the graph stream exhausts any recursion limit (50 in the source,
about 25 REASON/ACT cycles) and raises; `run_mcp_and_send_final` catches the
exception and emits exactly one typed error event with source `mcp` — the
step limit is handled as an error, and no truncated flag or normal
completion is produced. -/
theorem claim_C2_amended (oracle : Nat → ModelResult) (texec : ToolCall → String)
    (limit : Nat) (h : ∀ n, tools_condition (reasoning_node (oracle n)) = true) :
    graphStream oracle texec limit 0 = Except.error "GraphRecursionError" ∧
    mcpPipelineRun oracle texec limit =
      [Event.errorEv "mcp" "Error during MCP graph streaming: GraphRecursionError"] := by
  have hg := graphStream_alwaysTools oracle texec h limit 0
  refine ⟨hg, ?_⟩
  unfold mcpPipelineRun
  rw [hg]
  rfl

theorem claim_C2_amended_witness :
    graphStream c2oracle c2texec 50 0 = Except.error "GraphRecursionError" ∧
    mcpPipelineRun c2oracle c2texec 50 =
      [Event.errorEv "mcp" "Error during MCP graph streaming: GraphRecursionError"] :=
  claim_C2_amended c2oracle c2texec 50 (fun _ => rfl)

/-- Claim C3: a failed model invocation at any REASON phase is not
propagated: `reasoning_node` substitutes the synthetic degraded-mode
AIResponse (rate-limit apology, zero tool calls), so the graph routes to
END and the stream from that phase completes normally with the synthetic
message as terminal candidate. -/
theorem claim_C3 (oracle : Nat → ModelResult) (texec : ToolCall → String)
    (fuel n : Nat) (e : String) (h : oracle n = ModelResult.err e) :
    reasoning_node (oracle n) = ⟨rateLimitText, []⟩ ∧
    graphStream oracle texec (fuel + 1) n = Except.ok [Msg.ai rateLimitText []] := by
  constructor
  · rw [h]; rfl
  · cases fuel with
    | zero => simp [graphStream, h, reasoning_node, tools_condition]
    | succ fuel => simp [graphStream, h, reasoning_node, tools_condition]

theorem claim_C3_witness :
    reasoning_node ((fun _ => ModelResult.err "ReadTimeout") 0) = ⟨rateLimitText, []⟩ ∧
    graphStream (fun _ => ModelResult.err "ReadTimeout") (fun _ => "") 1 0 =
      Except.ok [Msg.ai rateLimitText []] :=
  claim_C3 (fun _ => ModelResult.err "ReadTimeout") (fun _ => "") 0 0 "ReadTimeout" rfl

/-- Claim C10: a frame that is not valid JSON, or whose `message` field is
missing or empty, is silently skipped: nothing is dispatched, no outbound
event is produced for it, and the loop serves the remaining frames
unchanged. -/
theorem claim_C10 (raw : Option JVal) (rest : List (Option JVal))
    (mo : MCPOutcome) (so : StdOutcome) (h : badFrame raw = true) :
    handleFrame raw = FrameResult.skip ∧
    frameOutEvents raw mo so = [] ∧
    processFrames (raw :: rest) = processFrames rest := by
  have hs : handleFrame raw = FrameResult.skip := by
    cases raw with
    | none => rfl
    | some j =>
      cases j with
      | s v => rfl
      | a xs => rfl
      | o fs =>
        simp only [badFrame] at h
        cases hl : lookupField fs "message" with
        | none => simp [handleFrame, hl]
        | some v =>
          rw [hl] at h
          cases v with
          | s mv =>
            have : (mv == "") = true := h
            simp [handleFrame, hl, truthy, this]
          | a xs => exact absurd h (by simp)
          | o fs2 => exact absurd h (by simp)
  exact ⟨hs, by simp [frameOutEvents, hs], by simp [processFrames, hs]⟩

theorem claim_C10_witness :
    handleFrame (some (JVal.o [("text", JVal.s "hello")])) = FrameResult.skip ∧
    frameOutEvents (some (JVal.o [("text", JVal.s "hello")]))
      (MCPOutcome.exn "x") (StdOutcome.exn "y") = [] ∧
    processFrames (some (JVal.o [("text", JVal.s "hello")]) ::
        [some (JVal.o [("message", JVal.s "hi")])]) =
      processFrames [some (JVal.o [("message", JVal.s "hi")])] :=
  claim_C10 (some (JVal.o [("text", JVal.s "hello")]))
    [some (JVal.o [("message", JVal.s "hi")])]
    (MCPOutcome.exn "x") (StdOutcome.exn "y") rfl

/-- Claim C4, counterexample: the body section does NOT stop at the next
recognized header — `Body:(.*)` is greedy to the end of the text, so for
"Body: B\nSubject: S" the extracted body is "B\nSubject: S", not "B" as
the stop-at-next-header reading requires. -/
theorem claim_C4_counterexample :
    extractEmail "Body: B\nSubject: S" = some ⟨"", "S", "B\nSubject: S"⟩ ∧
    extractEmail "Body: B\nSubject: S" ≠ some ⟨"", "S", "B"⟩ := by
  decide

/-- Claim C4, amended: the extractor locates the three header labels
case-insensitively at their leftmost occurrences; the contacts section runs
until the subject or body header or the end of text, the subject section
until the body header or the end of text, and the body section always runs
to the end of the text (a later header does not terminate it); in
particular "Potential Contacts: A\nSubject: B\nBody: C" extracts to
contacts "A", subject "B", body "C". -/
theorem claim_C4_amended :
    extractEmail "Potential Contacts: A\nSubject: B\nBody: C" = some ⟨"A", "B", "C"⟩ ∧
    extractEmail "POTENTIAL CONTACTS: A\nsubject: B\nbODY: C" = some ⟨"A", "B", "C"⟩ ∧
    extractEmail "Potential Contacts: A\nBody: C" = some ⟨"A", "", "C"⟩ ∧
    extractEmail "Subject: B\nBody: C" = some ⟨"", "B", "C"⟩ ∧
    extractEmail "Body: B\nSubject: S" = some ⟨"", "S", "B\nSubject: S"⟩ := by
  decide

/-- Claim C5: when the stripped terminal text is non-empty but carries no
case-insensitive body header, extraction yields nothing, the first event the
helper sends is the typed extraction-failure error, and no
`mcp_final_email` event appears anywhere in the run's output (the run still
completes, emitting its step log afterwards when present). -/
theorem claim_C5 (msgs : List Msg) (c : String)
    (h1 : lastAIContent msgs = some c)
    (h2 : ¬ pyStrip c = "")
    (h3 : findCI (pyStrip c).data ("Body:".data) = none) :
    extractEmail (pyStrip c) = none ∧
    (mcpHelperEvents msgs).head? =
      some (Event.errorEv "mcp" "Could not parse structured email from final AI message.") ∧
    ∀ ev ∈ mcpHelperEvents msgs, ∀ r, ev ≠ Event.mcpFinalEmail r := by
  have hex : extractEmail (pyStrip c) = none := by
    unfold extractEmail extractEmailL
    rw [h3]
  have hbe : (pyStrip c == "") = false := by
    cases hb : (pyStrip c == "") with
    | false => rfl
    | true => exact absurd (by simpa using hb) h2
  have hfe : finalEventOf (pyStrip c) =
      Event.errorEv "mcp" "Could not parse structured email from final AI message." := by
    simp [finalEventOf, hbe, hex]
  have hcne : (c == "") = false := by
    cases hb : (c == "") with
    | false => rfl
    | true =>
      have hc : c = "" := by simpa using hb
      subst hc
      exact absurd rfl h2
  refine ⟨hex, ?_, ?_⟩
  · rw [mcpHelperEvents_nonempty msgs c h1 hcne, hfe]
    rfl
  · intro ev hev r
    rw [mcpHelperEvents_nonempty msgs c h1 hcne] at hev
    rcases List.mem_cons.mp hev with rfl | hev2
    · rw [hfe]
      exact fun hh => Event.noConfusion hh
    · revert hev2
      split
      · intro hev2; cases hev2
      · intro hev2
        rcases List.mem_singleton.mp hev2 with rfl
        exact fun hh => Event.noConfusion hh

theorem claim_C5_witness :
    extractEmail (pyStrip "thinking about the task") = none ∧
    (mcpHelperEvents [Msg.ai "thinking about the task" []]).head? =
      some (Event.errorEv "mcp" "Could not parse structured email from final AI message.") ∧
    ∀ ev ∈ mcpHelperEvents [Msg.ai "thinking about the task" []],
      ∀ r, ev ≠ Event.mcpFinalEmail r :=
  claim_C5 [Msg.ai "thinking about the task" []] "thinking about the task"
    (by decide) (by decide) (by decide)

/-- The body the extractor returns is a contiguous slice of the input text
(only a leading/trailing whitespace margin is removed), so any interior
marker text survives character-for-character. -/
theorem extractEmailL_body (t c s b : List Char)
    (h : extractEmailL t = some (c, s, b)) :
    ∃ u v, t = u ++ b ++ v := by
  unfold extractEmailL at h
  cases hf : findCI t ("Body:".data) with
  | none => rw [hf] at h; exact absurd h (by simp)
  | some i =>
    rw [hf] at h
    cases Option.some.inj h
    rcases pyStripL_sandwich (t.drop (i + ("Body:".data).length)) with ⟨u, v, huv⟩
    refine ⟨t.take (i + ("Body:".data).length) ++ u, v, ?_⟩
    conv_lhs => rw [← List.take_append_drop (i + ("Body:".data).length) t, huv]
    simp [List.append_assoc]

/-- Claim C6: sourced-fact markers inside the body survive extraction
character-for-character — the concrete marker example extracts with markers
intact and absent headers defaulting to empty, and in general the extracted
body is a contiguous slice of the terminal text. -/
theorem claim_C6 :
    extractEmail "Body: hello <<<mcp_data>>>X<<<end_mcp_data>>>" =
      some ⟨"", "", "hello <<<mcp_data>>>X<<<end_mcp_data>>>"⟩ ∧
    ∀ (t : String) (r : StructuredEmail), extractEmail t = some r →
      ∃ u v, t.data = u ++ r.body.data ++ v := by
  refine ⟨by decide, ?_⟩
  intro t r h
  unfold extractEmail at h
  cases he : extractEmailL t.data with
  | none => rw [he] at h; exact absurd h (by simp)
  | some trip =>
    rw [he] at h
    obtain ⟨c, s, b⟩ := trip
    have hr := Option.some.inj h
    have hb : r.body.data = b := by rw [← hr]
    rw [hb]
    exact extractEmailL_body t.data c s b he

theorem claim_C6_witness :
    ∃ u v, ("Body: hello <<<mcp_data>>>X<<<end_mcp_data>>>" : String).data =
      u ++ (StructuredEmail.mk "" "" "hello <<<mcp_data>>>X<<<end_mcp_data>>>").body.data ++ v :=
  claim_C6.2 "Body: hello <<<mcp_data>>>X<<<end_mcp_data>>>"
    ⟨"", "", "hello <<<mcp_data>>>X<<<end_mcp_data>>>"⟩ (by decide)

/-- Claim C7, counterexample: a run whose terminal AIResponse has empty
content reaches DONE (the graph ends normally on the tool-call-free
answer), yet the helper emits only one generic mcp error event — the
empty content is falsy, `extracted_text` is never bound, the
`UnboundLocalError` lands in the outer except, and no
`mcp_intermediate_steps` event is ever sent. -/
theorem claim_C7_counterexample :
    graphStream (fun _ => ModelResult.ok "" []) (fun _ => "") 1 0 =
      Except.ok [Msg.ai "" []] ∧
    (∃ m, mcpHelperEvents [Msg.ai "" []] = [Event.errorEv "mcp" m]) ∧
    ∀ s, Event.mcpIntermediateSteps s ∉ mcpHelperEvents [Msg.ai "" []] := by
  refine ⟨rfl, ⟨_, rfl⟩, ?_⟩
  intro s hmem
  have heq := List.mem_singleton.mp hmem
  exact Event.noConfusion heq

/-- Claim C7, amended: every reasoning run whose stream completes normally
with a non-empty terminal AIResponse content emits exactly two events — the
final-result or error event first, then exactly one
`mcp_intermediate_steps` event carrying the remaining step log (a run whose
terminal content is empty instead emits a single generic mcp error event
and no steps event). -/
theorem claim_C7_amended (oracle : Nat → ModelResult) (texec : ToolCall → String)
    (fuel : Nat) (msgs : List Msg) (c : String)
    (h : graphStream oracle texec fuel 0 = Except.ok msgs)
    (hc : lastAIContent msgs = some c) (hne : c ≠ "") :
    ∃ e s, mcpHelperEvents msgs = [e, Event.mcpIntermediateSteps s] ∧
      ((∃ r, e = Event.mcpFinalEmail r) ∨ (∃ m, e = Event.errorEv "mcp" m)) := by
  rcases graphStream_ok_shape oracle texec fuel 0 msgs h with ⟨pre, c0, rfl, hpre⟩
  have hlast := lastAIContent_concat_ai pre c0 []
  have hc0 : c0 = c := by rw [hlast] at hc; exact Option.some.inj hc
  subst hc0
  have hcne : (c0 == "") = false := by
    cases hb : (c0 == "") with
    | false => rfl
    | true => exact absurd (by simpa using hb) hne
  have hsteps : collectSteps (pre ++ [Msg.ai c0 []]) =
      collectSteps pre ++ [Step.aiThought c0] := by
    rw [collectSteps_append]; rfl
  have hemp : (collectSteps (pre ++ [Msg.ai c0 []])).isEmpty = false := by
    rw [hsteps]; cases collectSteps pre <;> rfl
  refine ⟨finalEventOf (pyStrip c0),
    sentStepsOf (collectSteps (pre ++ [Msg.ai c0 []])) c0, ?_,
    finalEventOf_cases (pyStrip c0)⟩
  rw [mcpHelperEvents_nonempty (pre ++ [Msg.ai c0 []]) c0 hlast hcne, hemp]
  rfl

theorem claim_C7_amended_witness :
    ∃ e s, mcpHelperEvents [Msg.ai "Body: hi" []] = [e, Event.mcpIntermediateSteps s] ∧
      ((∃ r, e = Event.mcpFinalEmail r) ∨ (∃ m, e = Event.errorEv "mcp" m)) :=
  claim_C7_amended (fun _ => ModelResult.ok "Body: hi" []) (fun _ => "") 1
    [Msg.ai "Body: hi" []] "Body: hi" (by rfl) (by rfl) (by decide)

/-- Claim C8: in the steps event of a normally completed reasoning run, the
emitted log never ends with a `Thought` whose text equals the run's terminal
text (the trailing duplicate thought is popped before sending, and the graph
routing puts thought steps only at the very end of the log). -/
theorem claim_C8 (oracle : Nat → ModelResult) (texec : ToolCall → String)
    (fuel : Nat) (msgs : List Msg) (c : String) (steps : List Step)
    (h : graphStream oracle texec fuel 0 = Except.ok msgs)
    (hc : lastAIContent msgs = some c)
    (hmem : Event.mcpIntermediateSteps steps ∈ mcpHelperEvents msgs) :
    steps.getLast? ≠ some (Step.aiThought c) := by
  rcases graphStream_ok_shape oracle texec fuel 0 msgs h with ⟨pre, c0, rfl, hpre⟩
  have hlast := lastAIContent_concat_ai pre c0 []
  have hc0 : c0 = c := by rw [hlast] at hc; exact Option.some.inj hc
  subst hc0
  by_cases hcz : (c0 == "") = true
  · have hz : c0 = "" := by simpa using hcz
    have hone : mcpHelperEvents (pre ++ [Msg.ai c0 []]) = [unboundLocalEvent] :=
      mcpHelperEvents_empty _ (hz ▸ hlast)
    rw [hone] at hmem
    exact absurd (List.mem_singleton.mp hmem) (fun heq => Event.noConfusion heq)
  have hcne : (c0 == "") = false := by
    cases hb : (c0 == "") with
    | false => rfl
    | true => exact absurd hb hcz
  have hsteps : collectSteps (pre ++ [Msg.ai c0 []]) =
      collectSteps pre ++ [Step.aiThought c0] := by
    rw [collectSteps_append]; rfl
  have hne : (collectSteps (pre ++ [Msg.ai c0 []])).isEmpty = false := by
    rw [hsteps]; cases collectSteps pre <;> rfl
  have hpop : popCond (collectSteps (pre ++ [Msg.ai c0 []])) c0 = true := by
    unfold popCond
    rw [hsteps, List.getLast?_concat]
    simp
  have hsent : sentStepsOf (collectSteps (pre ++ [Msg.ai c0 []])) c0 = collectSteps pre := by
    unfold sentStepsOf
    rw [if_pos hpop, hsteps, List.dropLast_concat]
  have hlist : mcpHelperEvents (pre ++ [Msg.ai c0 []]) =
      [finalEventOf (pyStrip c0), Event.mcpIntermediateSteps (collectSteps pre)] := by
    rw [mcpHelperEvents_nonempty (pre ++ [Msg.ai c0 []]) c0 hlast hcne, hne, hsent]
    rfl
  rw [hlist] at hmem
  rcases List.mem_cons.mp hmem with heq | hmem2
  · exact absurd heq.symm (finalEventOf_ne_steps _ _)
  · have heq2 := List.mem_singleton.mp hmem2
    have hse : steps = collectSteps pre := by
      injection heq2
    subst hse
    intro hlast2
    exact noThought_collect pre hpre c0 (getLast?_mem_of_eq hlast2)

theorem claim_C8_witness :
    ([Step.aiToolCall "match_businesses" "Acme",
      Step.toolResult "match_businesses" "id-1"] : List Step).getLast? ≠
      some (Step.aiThought "Body: done") :=
  claim_C8
    (fun n => if n == 0 then ModelResult.ok "researching" [⟨"match_businesses", "Acme"⟩]
              else ModelResult.ok "Body: done" [])
    (fun _ => "id-1") 3
    [Msg.ai "researching" [⟨"match_businesses", "Acme"⟩],
     Msg.tool "match_businesses" "id-1",
     Msg.ai "Body: done" []]
    "Body: done"
    [Step.aiToolCall "match_businesses" "Acme",
     Step.toolResult "match_businesses" "id-1"]
    (by rfl) (by rfl) (by decide)

/-- Claim C9, counterexample: the single-shot success event has JSON type
"standard_final_email", not "final_email", and carries no "source" key; and
the reasoning success event's content object keys the contacts under
"potential_contacts", not "contacts". -/
theorem claim_C9_counterexample :
    send_standard_llm_response (StdOutcome.ok "hello") = [Event.standardFinalEmail "hello"] ∧
    getStr (eventToJson (Event.standardFinalEmail "hello")) "type" = some "standard_final_email" ∧
    getStr (eventToJson (Event.standardFinalEmail "hello")) "type" ≠ some "final_email" ∧
    hasKey (eventToJson (Event.standardFinalEmail "hello")) "source" = false ∧
    hasKey (contentOf (eventToJson (Event.mcpFinalEmail ⟨"Jane Doe", "Hi", "Body text"⟩)))
      "contacts" = false ∧
    hasKey (contentOf (eventToJson (Event.mcpFinalEmail ⟨"Jane Doe", "Hi", "Body text"⟩)))
      "potential_contacts" = true := by
  decide

/-- Claim C9, amended: the single-shot success event has type
"standard_final_email" with a string content field and no source field,
and the reasoning success event has type "mcp_final_email" whose content
object has the string fields potential_contacts, subject and body. -/
theorem claim_C9_amended (c : String) (r : StructuredEmail) :
    getStr (eventToJson (Event.standardFinalEmail c)) "type" = some "standard_final_email" ∧
    getStr (eventToJson (Event.standardFinalEmail c)) "content" = some c ∧
    hasKey (eventToJson (Event.standardFinalEmail c)) "source" = false ∧
    getStr (eventToJson (Event.mcpFinalEmail r)) "type" = some "mcp_final_email" ∧
    getStr (contentOf (eventToJson (Event.mcpFinalEmail r))) "potential_contacts" =
      some r.potential_contacts ∧
    getStr (contentOf (eventToJson (Event.mcpFinalEmail r))) "subject" = some r.subject ∧
    getStr (contentOf (eventToJson (Event.mcpFinalEmail r))) "body" = some r.body :=
  ⟨rfl, rfl, rfl, rfl, rfl, rfl, rfl⟩

end Explorium
